import Mathlib

/-!
Verification of the midnight-scavenger mining client against its
natural-language specification.

The development shallowly embeds the relevant parts of the Rust sources:

* src/miner.rs   : difficulty-mask parsing, preimage construction, the
  acceptance predicate, the nonce stride, and the cross-thread
  first-winner protocol of the function mine.
* src/wallet.rs  : address derivation and the wallet constructors
  (generate, generate_from_bip39, generate_shelley_base_from_mnemonic_phrase,
  load_from_file, load_many_from_files).
* src/wallet_container.rs : WalletContainer::load_or_create and
  WalletContainer::save with its advisory lock file.

Machine integers are modelled as Nat with explicit reduction mod 2^w at the
points where the Rust types (u8, u32, u64) would wrap.  External
cryptographic primitives (ed25519, blake2b-224, ChaCha20, BIP-39 seed
stretching, bech32) are not code of this repository; they enter the
embedding as an explicit record of abstract functions (CryptoPrims) that
each wallet operation takes as a parameter, so theorems quantify over them
while remaining executable on concrete toy instantiations.
-/

namespace Scavenger

/-! ## Hex rendering (Rust format specifier {:016x} on a u64) -/

/-- Lowercase hex digit for a value below 16 (0-9 then a-f), as produced by
the Rust {:x} formatter. -/
def hexDigitChar (n : Nat) : Char :=
  if n < 10 then Char.ofNat (48 + n) else Char.ofNat (87 + n)

/-- Little-endian hex digit list of n, with explicit fuel (16 digits suffice
for any u64). -/
def toHexRevFuel : Nat → Nat → List Char
  | 0, _ => []
  | fuel + 1, n => if n = 0 then [] else hexDigitChar (n % 16) :: toHexRevFuel fuel (n / 16)

/-- Rendering of a 64-bit nonce as Rust writes it with {:016x}: lowercase
hex, left-padded with zeros to width 16.  The mod 2^64 reflects the u64
domain of the nonce. -/
def hex16 (n : Nat) : String :=
  let ds := (toHexRevFuel 16 (n % 2 ^ 64)).reverse
  String.mk (List.replicate (16 - ds.length) '0' ++ ds)

/-- Numeric value of a hex digit character; 0 on non-hex junk (total
helper used to state correctness of hex16). -/
def hexCharValN (c : Char) : Nat :=
  if 48 ≤ c.toNat ∧ c.toNat ≤ 57 then c.toNat - 48
  else if 97 ≤ c.toNat ∧ c.toNat ≤ 102 then c.toNat - 87
  else 0

/-- Big-endian value of a hex digit string. -/
def hexStrVal (l : List Char) : Nat :=
  l.foldl (fun acc c => acc * 16 + hexCharValN c) 0

/-- Value of a little-endian digit list. -/
def hexValRev : List Char → Nat
  | [] => 0
  | c :: cs => hexCharValN c + 16 * hexValRev cs

/-- Character class of the Rust lowercase hex formatter output. -/
def isLowerHexDigit (c : Char) : Bool :=
  (48 ≤ c.toNat && c.toNat ≤ 57) || (97 ≤ c.toNat && c.toNat ≤ 102)

/-! ## Challenge descriptor (src/api_client.rs, struct ChallengeParams) -/

/-- Challenge descriptor as deserialized from the server
(src/api_client.rs).  String and numeric metadata fields are carried
verbatim; the miner only reads challenge_id, difficulty, no_pre_mine,
latest_submission and no_pre_mine_hour. -/
structure ChallengeParams where
  challenge_id : String
  day : Option Nat
  challenge_number : Option Nat
  issued_at : Option String
  latest_submission : Option String
  difficulty : Option String
  no_pre_mine : Option String
  no_pre_mine_hour : Option String
deriving DecidableEq, Repr

/-! ## Difficulty mask (src/miner.rs lines 103-112) -/

/-- Accumulating hex parse with the per-step u32 overflow check performed by
Rust u32::from_str_radix: each step multiplies by the radix and adds the
digit, failing if the result leaves the u32 range.  Digits 0-9, a-f, A-F
are accepted, matching char::to_digit(16). -/
def parseHexCore : List Char → Nat → Option Nat
  | [], acc => some acc
  | c :: cs, acc =>
    let d : Option Nat :=
      if 48 ≤ c.toNat ∧ c.toNat ≤ 57 then some (c.toNat - 48)
      else if 97 ≤ c.toNat ∧ c.toNat ≤ 102 then some (c.toNat - 87)
      else if 65 ≤ c.toNat ∧ c.toNat ≤ 70 then some (c.toNat - 55)
      else none
    match d with
    | none => none
    | some v =>
      if acc * 16 + v < 2 ^ 32 then parseHexCore cs (acc * 16 + v) else none

/-- Rust u32::from_str_radix(s, 16): empty input fails, a single leading
plus sign is allowed (a minus sign is not, u32 being unsigned, and then
fails as an invalid digit), and the value must fit in 32 bits. -/
def u32FromStrRadix16 (s : String) : Option Nat :=
  match s.data with
  | [] => none
  | c :: rest =>
    if c = '+' then
      match rest with
      | [] => none
      | _ => parseHexCore rest 0
    else parseHexCore (c :: rest) 0

/-- Difficulty mask computation of mine (src/miner.rs lines 103-112):
challenge.difficulty.as_ref().and_then(parse hex u32).unwrap_or(0). -/
def difficultyMask (c : ChallengeParams) : Nat :=
  (c.difficulty.bind u32FromStrRadix16).getD 0

/-! ## Acceptance predicate (src/miner.rs lines 183-190) -/

/-- First 4 bytes of the digest interpreted big-endian as a u32
(u32::from_be_bytes on digest[0..4]); source variable name: the leading
32-bit word of the hash.  Digest bytes are u8, hence the mod 256. -/
def hashLead32 (digest : List Nat) : Nat :=
  (digest.getD 0 0 % 256) * 16777216 + (digest.getD 1 0 % 256) * 65536 +
    (digest.getD 2 0 % 256) * 256 + digest.getD 3 0 % 256

/-- Bitwise complement of a u32 value (Rust !mask on u32). -/
def u32Compl (m : Nat) : Nat := 4294967295 ^^^ m

/-- Acceptance test of mine: (hash_lead & !difficulty_mask) == 0
(src/miner.rs line 190). -/
def accepts (mask : Nat) (digest : List Nat) : Bool :=
  hashLead32 digest &&& u32Compl mask == 0

/-! ## Preimage construction (src/miner.rs lines 164-172) -/

/-- Preimage built by each worker iteration of mine: the 16-hex-digit nonce
followed by the address, the challenge id, the raw difficulty string and
the three protocol tokens, absent options contributing the empty string
(unwrap_or_default in the source). -/
def buildPreimage (address : String) (c : ChallengeParams) (nonce : Nat) : String :=
  hex16 nonce ++ address ++ c.challenge_id ++ c.difficulty.getD "" ++
    c.no_pre_mine.getD "" ++ c.latest_submission.getD "" ++ c.no_pre_mine_hour.getD ""

/-- Acceptance of one candidate nonce by a worker, for an abstract
memory-hard digest function standing for ashmaize::hash against the shared
ROM with the fixed parameters of the source (8 loops, 256 instructions). -/
def workerAccepts (hashFn : String → List Nat) (address : String)
    (c : ChallengeParams) (mask : Nat) (nonce : Nat) : Bool :=
  accepts mask (hashFn (buildPreimage address c nonce))

/-! ## First-winner protocol of mine (src/miner.rs lines 187-214, 251-267)

One search spawns num_threads workers sharing an AtomicBool found flag and
a mutex-protected result slot.  The shared-state effect of a worker that
detects an acceptable digest is: swap the flag to true with AcqRel
ordering and, exactly when the swap returned false, store the nonce and
preimage in the slot.  We model one search as the fold of that atomic
event over the interleaving order in which accepting workers reach the
swap; non-accepting iterations do not touch the shared state and are
dropped from the trace. -/

/-- Shared state of one mine call: the found flag and the result slot,
tagged with the index of the thread that wrote it. -/
structure RaceState where
  found : Bool
  slot : Option (Nat × String)
deriving DecidableEq, Repr

/-- Shared state before any worker accepts. -/
def raceInit : RaceState := { found := false, slot := none }

/-- Effect of one accepting worker (thread index and rendered nonce) on
the shared state: found.swap(true, AcqRel) and, for the single winner, the
slot store under the mutex. -/
def raceStep (s : RaceState) (e : Nat × String) : RaceState :=
  if s.found then s else { found := true, slot := some e }

/-- Shared state after a whole search whose accepting workers reached the
swap in the given order. -/
def raceRun (events : List (Nat × String)) : RaceState :=
  events.foldl raceStep raceInit

/-- Value returned by mine after joining all workers (src/miner.rs lines
251-267): the recorded result, or the error string when no thread found
one. -/
def mineReturn (s : RaceState) : Except String (Nat × String) :=
  match s.slot with
  | some r => Except.ok r
  | none => Except.error "No result found"

/-! ## Nonce stride (src/miner.rs lines 225-227) -/

/-- One non-winning loop iteration advances the worker nonce by
nonce.wrapping_add(num_threads as u64). -/
def nonceStep (numThreads nonce : Nat) : Nat :=
  (nonce + numThreads % 2 ^ 64) % 2 ^ 64

/-- Nonce of a worker after k non-winning iterations, starting from its
random 64-bit starting point. -/
def nonceAt (start numThreads : Nat) : Nat → Nat
  | 0 => start % 2 ^ 64
  | k + 1 => nonceStep numThreads (nonceAt start numThreads k)

/-! ## Wallet cryptographic subsystem (src/wallet.rs)

The external cryptographic primitives used by wallet.rs come from crates
(ed25519_dalek, blake2, rand_chacha, bip39, bech32, hex), not from this
repository.  They are abstracted into a record of functions; every wallet
operation is parametric in it.  Byte strings are lists of Nat taken mod
256 where the byte width matters. -/

/-- Abstract cryptographic primitives of the wallet subsystem.
phraseOfEntropy models Mnemonic::from_entropy_in followed by to_string;
parseMnemonic models Mnemonic::parse_in_normalized (none on checksum or
word-list failure, otherwise the normalized phrase); seedOfPhrase models
Mnemonic::to_seed with an empty passphrase (64 bytes); chachaBlock seed i
is the i-th consecutive 32-byte draw of ChaCha20Rng::from_seed(seed);
pubOf models SigningKey::from_bytes followed by verifying_key().to_bytes;
blake224 models Blake2bVar with 28-byte output; bech32Enc models
bech32::encode of a payload under a human-readable part. -/
structure CryptoPrims where
  phraseOfEntropy : List Nat → String
  parseMnemonic : String → Option String
  seedOfPhrase : String → List Nat
  chachaBlock : List Nat → Nat → List Nat
  pubOf : List Nat → List Nat
  blake224 : List Nat → List Nat
  bech32Enc : String → List Nat → String

/-- Sequential state of ChaCha20Rng::from_seed: the seed plus the number
of 32-byte draws already made.  fill_bytes is stateful, so the order of
draws matters. -/
structure ChaChaState where
  seed : List Nat
  draws : Nat
deriving DecidableEq, Repr

/-- ChaCha20Rng::from_seed. -/
def chachaFromSeed (seed : List Nat) : ChaChaState := { seed := seed, draws := 0 }

/-- One rng.fill_bytes call on a 32-byte buffer: returns the next block of
the stream and advances the generator. -/
def fillBytes32 (c : CryptoPrims) (st : ChaChaState) : List Nat × ChaChaState :=
  (c.chachaBlock st.seed st.draws, { seed := st.seed, draws := st.draws + 1 })

/-- Wallet value (src/wallet.rs struct Wallet): signing key bytes, Bech32
address, optional mnemonic, explicit Shelley address (empty by default). -/
structure Wallet where
  signingKey : List Nat
  address : String
  mnemonic : Option String
  shelley_addr : String
deriving DecidableEq, Repr

/-- Public key of a wallet (verifying_key().to_bytes() of the stored
signing key). -/
def walletPubkey (c : CryptoPrims) (w : Wallet) : List Nat :=
  c.pubOf w.signingKey

/-- Hex encoding of a byte list (hex::encode), two lowercase digits per
byte. -/
def byteToHexChars (b : Nat) : List Char :=
  [hexDigitChar (b % 256 / 16), hexDigitChar (b % 16)]

/-- Hex string of a byte list. -/
def hexEncodeBytes (l : List Nat) : String :=
  String.mk (l.foldr (fun b acc => byteToHexChars b ++ acc) [])

/-- Hex digit value accepted by hex::decode and by char::to_digit(16). -/
def hexDigitVal (c : Char) : Option Nat :=
  if 48 ≤ c.toNat ∧ c.toNat ≤ 57 then some (c.toNat - 48)
  else if 97 ≤ c.toNat ∧ c.toNat ≤ 102 then some (c.toNat - 87)
  else if 65 ≤ c.toNat ∧ c.toNat ≤ 70 then some (c.toNat - 55)
  else none

/-- Hex decoding of a character list (hex::decode): even length, every
character a hex digit. -/
def hexDecodeCore : List Char → Option (List Nat)
  | [] => some []
  | [_] => none
  | a :: b :: rest =>
    match hexDigitVal a, hexDigitVal b, hexDecodeCore rest with
    | some va, some vb, some tail => some ((va * 16 + vb) :: tail)
    | _, _, _ => none

/-- Wallet::derive_bech32_address (src/wallet.rs lines 296-310): blake2b-224
of the public key, header byte 0x61 on mainnet and 0x60 on testnet,
Bech32 encoding with hrp addr or addr_test. -/
def derive_bech32_address (c : CryptoPrims) (pubkey : List Nat) (useMainnet : Bool) : String :=
  let keyHash := c.blake224 pubkey
  let header : Nat := if useMainnet then 97 else 96
  let hrp := if useMainnet then "addr" else "addr_test"
  c.bech32Enc hrp (header :: keyHash)

/-- Wallet::generate (src/wallet.rs): fresh entropy (passed as an explicit
argument here), mnemonic from the entropy, signing key from the first 32
bytes of the BIP-39 seed, enterprise address from the public key. -/
def generate (c : CryptoPrims) (entropy : List Nat) (useMainnet : Bool) : Wallet :=
  let phrase := c.phraseOfEntropy entropy
  let seedBytes := (c.seedOfPhrase phrase).take 32
  let pubkey := c.pubOf seedBytes
  { signingKey := seedBytes
    address := derive_bech32_address c pubkey useMainnet
    mnemonic := some phrase
    shelley_addr := "" }

/-- Wallet::generate_from_bip39 (src/wallet.rs): same derivation as
generate; additionally returns the two file contents it writes (the
phrase and the hex signing key). -/
def generate_from_bip39 (c : CryptoPrims) (entropy : List Nat) (useMainnet : Bool) :
    Wallet × String × String :=
  let w := generate c entropy useMainnet
  (w, (c.phraseOfEntropy entropy), hexEncodeBytes w.signingKey)

/-- Wallet::generate_shelley_base_from_mnemonic_phrase (src/wallet.rs
lines 104-168): parse the phrase, seed one ChaCha20 generator from the
first 32 seed bytes, draw the payment keypair and then the staking
keypair from that single generator, hash both public keys to 28 bytes,
and Bech32-encode header byte plus payment hash plus stake hash.  The
payment key is kept as the signing key. -/
def generate_shelley_base_from_mnemonic_phrase (c : CryptoPrims) (phrase : String)
    (useMainnet : Bool) : Option Wallet :=
  match c.parseMnemonic phrase with
  | none => none
  | some normalized =>
    let seedBytes := (c.seedOfPhrase normalized).take 32
    let st0 := chachaFromSeed seedBytes
    let pay := fillBytes32 c st0
    let stake := fillBytes32 c pay.2
    let pubPay := c.pubOf pay.1
    let pubStake := c.pubOf stake.1
    let paymentHash := c.blake224 pubPay
    let stakeHash := c.blake224 pubStake
    let header : Nat := if useMainnet then 1 else 0
    let addrBytes := header :: (paymentHash ++ stakeHash)
    let hrp := if useMainnet then "addr" else "addr_test"
    let shelley := c.bech32Enc hrp addrBytes
    some { signingKey := pay.1
           address := shelley
           mnemonic := some phrase
           shelley_addr := shelley }

/-- Whitespace recognized by str::trim (the ASCII part of
char::is_whitespace, which is all that can surround a hex key line). -/
def isTrimWhitespace (c : Char) : Bool :=
  c = ' ' || c = '\x09' || c = '\x0a' || c = '\x0d' || c = '\x0b' || c = '\x0c'

/-- Leading and trailing whitespace removal of str::trim on a character
list. -/
def trimChars (l : List Char) : List Char :=
  ((l.dropWhile isTrimWhitespace).reverse.dropWhile isTrimWhitespace).reverse

/-- Wallet::load_from_file (src/wallet.rs): hex-decode the trimmed file
contents, require exactly 32 bytes, derive the enterprise address from
the public key. -/
def load_from_file (c : CryptoPrims) (contents : String) (useMainnet : Bool) :
    Except String Wallet :=
  match hexDecodeCore (trimChars contents.data) with
  | none => Except.error "invalid hex"
  | some bytes =>
    if bytes.length ≠ 32 then Except.error "La cle privee doit faire 32 octets"
    else
      Except.ok { signingKey := bytes
                  address := derive_bech32_address c (c.pubOf bytes) useMainnet
                  mnemonic := none
                  shelley_addr := "" }

/-- Split a character list at newline characters. -/
def splitAtNewlines : List Char → List (List Char)
  | [] => [[]]
  | '\n' :: rest => [] :: splitAtNewlines rest
  | ch :: rest =>
    match splitAtNewlines rest with
    | [] => [[ch]]
    | l :: ls => (ch :: l) :: ls

/-- Strip one trailing carriage return from a line. -/
def dropTrailingCR (l : List Char) : List Char :=
  match l.getLast? with
  | some '\x0d' => l.dropLast
  | _ => l

/-- Rust str::lines: split on newline, strip a trailing carriage return,
and drop the empty piece produced by a trailing newline (or by an empty
string). -/
def rustLines (s : String) : List String :=
  let parts := (splitAtNewlines s.data).map dropTrailingCR
  let parts := match parts.getLast? with
    | some [] => parts.dropLast
    | _ => parts
  parts.map String.mk

/-- Loop body of Wallet::load_many_from_files over the zipped seed and key
lines (src/wallet.rs lines 343-372).  The key line is ignored by the
source.  Each seed phrase yields a Shelley base wallet whose payment key
is kept as the signing key, while the stored address is the enterprise
address of the key derived directly from the first 32 seed bytes. -/
def loadManyAux (c : CryptoPrims) (useMainnet : Bool) :
    List (String × String) → Except String (List Wallet)
  | [] => Except.ok []
  | (seedPhrase, _keyHex) :: rest =>
    match generate_shelley_base_from_mnemonic_phrase c seedPhrase useMainnet with
    | none => Except.error "invalid mnemonic"
    | some w =>
      match c.parseMnemonic seedPhrase with
      | none => Except.error "invalid mnemonic"
      | some normalized =>
        let seedBytes := (c.seedOfPhrase normalized).take 32
        let addr := derive_bech32_address c (c.pubOf seedBytes) useMainnet
        match loadManyAux c useMainnet rest with
        | Except.error e => Except.error e
        | Except.ok ws =>
          Except.ok ({ signingKey := w.signingKey
                       address := addr
                       mnemonic := some seedPhrase
                       shelley_addr := w.shelley_addr } :: ws)

/-- Wallet::load_many_from_files on the two file contents. -/
def load_many_from_files (c : CryptoPrims) (seedsStr keysStr : String)
    (useMainnet : Bool) : Except String (List Wallet) :=
  loadManyAux c useMainnet (List.zip (rustLines seedsStr) (rustLines keysStr))

/-! ## Wallet container (src/wallet_container.rs) -/

/-- WalletContainer::load_or_create (src/wallet_container.rs lines 23-79),
restricted to its in-memory effect.  The loaded argument is the outcome of
Wallet::load_many_from_files on the existing files: none models missing
files or a load failure (the source logs a warning and keeps an empty
list), some ws a successful load.  gen is the stream of fresh
Wallet::generate draws.  Existing wallets are never removed; only the
missing count is generated and appended. -/
def load_or_create (loaded : Option (List Wallet)) (gen : Nat → Wallet)
    (maxWallets : Nat) : List Wallet :=
  let ws := loaded.getD []
  if ws.length < maxWallets then
    ws ++ (List.range (maxWallets - ws.length)).map gen
  else ws

/-- Contents of the seeds file written by WalletContainer::save: one
mnemonic per line (empty when absent). -/
def saveSeedsContent (ws : List Wallet) : String :=
  String.intercalate "\n" (ws.map (fun w => w.mnemonic.getD ""))

/-- Contents of the keys file written by WalletContainer::save: one hex
signing key per line. -/
def saveKeysContent (ws : List Wallet) : String :=
  String.intercalate "\n" (ws.map (fun w => hexEncodeBytes w.signingKey))

/-- On-disk state touched by WalletContainer::save: the advisory lock
file, the two target files and the two temporary files (none = absent). -/
structure SaveFs where
  lockExists : Bool
  seedsFile : Option String
  keysFile : Option String
  seedsTmp : Option String
  keysTmp : Option String
deriving DecidableEq, Repr

/-- Success or failure of each fallible filesystem operation performed by
save after the lock is acquired, in program order: the two temporary-file
writes and the two renames. -/
structure IoOutcomes where
  seedsWriteOk : Bool
  keysWriteOk : Bool
  seedsRenameOk : Bool
  keysRenameOk : Bool
deriving DecidableEq, Repr

/-- WalletContainer::save (src/wallet_container.rs lines 82-121).  The
lock acquisition loop retries create_new for up to 5 seconds; in this
model no other process releases the lock during the window, so the loop
succeeds exactly when the lock file is absent at entry.  Each later
fallible operation propagates its error immediately (the Rust question
mark operator), leaving the filesystem as mutated so far; the lock file
is removed only after both renames succeed. -/
def containerSave (ws : List Wallet) (io : IoOutcomes) (fs : SaveFs) :
    Option String × SaveFs :=
  if fs.lockExists then
    (some "WalletContainer: impossible d obtenir le lock", fs)
  else
    let fs1 : SaveFs := { fs with lockExists := true }
    if io.seedsWriteOk = false then (some "write seeds tmp failed", fs1)
    else
      let fs2 : SaveFs := { fs1 with seedsTmp := some (saveSeedsContent ws) }
      if io.keysWriteOk = false then (some "write keys tmp failed", fs2)
      else
        let fs3 : SaveFs := { fs2 with keysTmp := some (saveKeysContent ws) }
        if io.seedsRenameOk = false then (some "rename seeds failed", fs3)
        else
          let fs4 : SaveFs := { fs3 with seedsFile := fs3.seedsTmp, seedsTmp := none }
          if io.keysRenameOk = false then (some "rename keys failed", fs4)
          else
            let fs5 : SaveFs := { fs4 with keysFile := fs4.keysTmp, keysTmp := none }
            (none, { fs5 with lockExists := false })

/-! ## Concrete instantiations used to evaluate the abstract primitives -/

/-- Small executable instantiation of the abstract cryptographic
primitives, used to evaluate the wallet operations on concrete inputs.
Its chachaBlock ignores the seed for draw 0, exhibiting that nothing in
the wallet code forces the payment key to determine the seed. -/
def toyPrims : CryptoPrims where
  phraseOfEntropy e := String.mk (e.map (fun b => Char.ofNat (97 + b % 26)))
  parseMnemonic s := some s
  seedOfPhrase s := [s.length]
  chachaBlock seed i := if i = 0 then [0] else seed
  pubOf k := k
  blake224 k := List.replicate 28 (k.headD 0)
  bech32Enc h payload := h ++ String.mk (payload.map (fun b => Char.ofNat (b % 256)))

/-- First wallet of a load result (junk wallet on error or empty list). -/
def firstWalletOf (r : Except String (List Wallet)) : Wallet :=
  match r with
  | Except.ok (w :: _) => w
  | _ => { signingKey := [], address := "", mnemonic := none, shelley_addr := "" }

/-- Boolean success test of a load result. -/
def okB (r : Except String (List Wallet)) : Bool :=
  match r with
  | Except.ok _ => true
  | _ => false

/-- Sixty-four zero characters: hex encoding of 32 zero bytes. -/
def zeros64 : String := String.mk (List.replicate 64 '0')

/-- Wallet produced by load_from_file on zeros64 under toyPrims. -/
def cexLoadWallet : Wallet :=
  { signingKey := List.replicate 32 0
    address := derive_bech32_address toyPrims (toyPrims.pubOf (List.replicate 32 0)) true
    mnemonic := none
    shelley_addr := "" }

/-- Concrete existing wallet for container evaluations. -/
def wA : Wallet := { signingKey := [7], address := "addrA", mnemonic := some "mA", shelley_addr := "" }

/-- Concrete generation stream for container evaluations. -/
def genToy (i : Nat) : Wallet :=
  { signingKey := [i], address := "addrG", mnemonic := none, shelley_addr := "" }

/-- Filesystem with the advisory lock present. -/
def fsLocked : SaveFs :=
  { lockExists := true, seedsFile := some "s", keysFile := some "k", seedsTmp := none, keysTmp := none }

/-- Filesystem with the advisory lock absent. -/
def fsFree : SaveFs :=
  { lockExists := false, seedsFile := some "s", keysFile := some "k", seedsTmp := none, keysTmp := none }

/-! ## Helper lemmas on hex rendering -/

theorem toHexRevFuel_length_le : ∀ f n, (toHexRevFuel f n).length ≤ f
  | 0, _ => by simp [toHexRevFuel]
  | f + 1, n => by
    unfold toHexRevFuel
    by_cases h : n = 0
    · simp [h]
    · rw [if_neg h]
      simp only [List.length_cons]
      exact Nat.succ_le_succ (toHexRevFuel_length_le f (n / 16))

theorem hexCharValN_hexDigitChar {m : Nat} (h : m < 16) :
    hexCharValN (hexDigitChar m) = m := by
  interval_cases m <;> rfl

theorem isLowerHexDigit_hexDigitChar {m : Nat} (h : m < 16) :
    isLowerHexDigit (hexDigitChar m) = true := by
  interval_cases m <;> rfl

theorem hexValRev_toHexRevFuel : ∀ f n, n < 16 ^ f → hexValRev (toHexRevFuel f n) = n
  | 0, n, h => by
    simp [toHexRevFuel, hexValRev]
    omega
  | f + 1, n, h => by
    unfold toHexRevFuel
    by_cases h0 : n = 0
    · simp [h0, hexValRev]
    · rw [if_neg h0]
      simp only [hexValRev]
      rw [hexCharValN_hexDigitChar (Nat.mod_lt n (by norm_num))]
      rw [hexValRev_toHexRevFuel f (n / 16)
        ((Nat.div_lt_iff_lt_mul (by norm_num)).2 (by rw [pow_succ] at h; exact h))]
      omega

theorem toHexRevFuel_chars : ∀ f n c, c ∈ toHexRevFuel f n → isLowerHexDigit c = true
  | 0, n, c => by simp [toHexRevFuel]
  | f + 1, n, c => by
    unfold toHexRevFuel
    by_cases h0 : n = 0
    · simp [h0]
    · rw [if_neg h0]
      intro hc
      rcases List.mem_cons.1 hc with h | h
      · subst h
        exact isLowerHexDigit_hexDigitChar (Nat.mod_lt _ (by norm_num))
      · exact toHexRevFuel_chars f (n / 16) c h

theorem hex16_length (n : Nat) : (hex16 n).length = 16 := by
  have h := toHexRevFuel_length_le 16 (n % 2 ^ 64)
  simp only [hex16, String.length]
  rw [List.length_append, List.length_replicate, List.length_reverse]
  omega

theorem hexStrVal_replicate_zero (k : Nat) (l : List Char) :
    hexStrVal (List.replicate k '0' ++ l) = hexStrVal l := by
  induction k with
  | zero => simp
  | succ k ih =>
    simp only [List.replicate_succ, List.cons_append, hexStrVal, List.foldl_cons]
    have hz : 0 * 16 + hexCharValN '0' = 0 := rfl
    rw [hz]
    exact ih

theorem hexStrVal_reverse (l : List Char) : hexStrVal l.reverse = hexValRev l := by
  induction l with
  | nil => rfl
  | cons c cs ih =>
    rw [List.reverse_cons]
    simp only [hexStrVal, List.foldl_append, List.foldl_cons, List.foldl_nil]
    simp only [hexStrVal] at ih
    rw [ih]
    simp only [hexValRev]
    ring

theorem hex16_value (n : Nat) : hexStrVal (hex16 n).data = n % 2 ^ 64 := by
  have hlt : n % 2 ^ 64 < 16 ^ 16 := by
    have : n % 2 ^ 64 < 2 ^ 64 := Nat.mod_lt _ (by norm_num)
    omega
  simp only [hex16]
  rw [hexStrVal_replicate_zero, hexStrVal_reverse,
    hexValRev_toHexRevFuel 16 (n % 2 ^ 64) hlt]

theorem hex16_chars (n : Nat) (c : Char) (hc : c ∈ (hex16 n).data) :
    isLowerHexDigit c = true := by
  simp only [hex16] at hc
  rcases List.mem_append.1 hc with h | h
  · rw [List.eq_of_mem_replicate h]
    rfl
  · exact toHexRevFuel_chars 16 (n % 2 ^ 64) c (List.mem_reverse.1 h)

/-! ## Claim theorems -/

/-- C4: in every worker iteration the hash preimage is the concatenation,
in this exact order, of the nonce rendered as exactly 16 lowercase hex
digits of a 64-bit integer, the wallet address, the challenge identifier,
the raw difficulty string, the no-pre-mine token, the latest-submission
token and the no-pre-mine-hour token, absent optional fields contributing
the empty string; the hex rendering has length 16, uses only lowercase
hex digits, and denotes the nonce reduced mod 2^64. -/
theorem mine_preimage_spec (address : String) (c : ChallengeParams) (nonce : Nat) :
    buildPreimage address c nonce =
      hex16 nonce ++ address ++ c.challenge_id ++ c.difficulty.getD "" ++
        c.no_pre_mine.getD "" ++ c.latest_submission.getD "" ++ c.no_pre_mine_hour.getD "" ∧
    (hex16 nonce).length = 16 ∧
    (∀ ch ∈ (hex16 nonce).data, isLowerHexDigit ch = true) ∧
    hexStrVal (hex16 nonce).data = nonce % 2 ^ 64 := by
  refine ⟨rfl, hex16_length nonce, ?_, hex16_value nonce⟩
  intro ch hch
  exact hex16_chars nonce ch hch

/-- Witness for C4 at nonce 3735928559 (0xdeadbeef). -/
theorem mine_preimage_spec_witness :
    (hex16 3735928559).length = 16 ∧ isLowerHexDigit 'd' = true ∧
    hexStrVal (hex16 3735928559).data = 3735928559 % 2 ^ 64 := by
  obtain ⟨_, h2, h3, h4⟩ :=
    mine_preimage_spec "a" ⟨"id", none, none, none, none, none, none, none⟩ 3735928559
  exact ⟨h2, h3 'd' (by decide), h4⟩

/-! ## Helper lemmas on the acceptance predicate -/

theorem hashLead32_lt (d : List Nat) : hashLead32 d < 2 ^ 32 := by
  unfold hashLead32
  have h0 : d.getD 0 0 % 256 < 256 := Nat.mod_lt _ (by norm_num)
  have h1 : d.getD 1 0 % 256 < 256 := Nat.mod_lt _ (by norm_num)
  have h2 : d.getD 2 0 % 256 < 256 := Nat.mod_lt _ (by norm_num)
  have h3 : d.getD 3 0 % 256 < 256 := Nat.mod_lt _ (by norm_num)
  omega

theorem testBit_high_false {p i : Nat} (hp : p < 2 ^ 32) (hi : 32 ≤ i) :
    p.testBit i = false :=
  Nat.testBit_lt_two_pow (lt_of_lt_of_le hp (Nat.pow_le_pow_right (by norm_num) hi))

theorem land_compl_zero_iff (p M : Nat) (hp : p < 2 ^ 32) :
    p &&& u32Compl M = 0 ↔ ∀ i, p.testBit i = true → M.testBit i = true := by
  have hmask : (4294967295 : Nat) = 2 ^ 32 - 1 := by norm_num
  constructor
  · intro h i hpi
    have hi : i < 32 := by
      by_contra hge
      rw [testBit_high_false hp (by omega)] at hpi
      exact Bool.noConfusion hpi
    have hland := congrArg (fun x => x.testBit i) h
    simp only [Nat.testBit_land, Nat.zero_testBit] at hland
    rw [hpi] at hland
    simp only [Bool.true_and] at hland
    unfold u32Compl at hland
    rw [hmask, Nat.testBit_xor, Nat.testBit_two_pow_sub_one] at hland
    simpa [hi] using hland
  · intro h
    apply Nat.eq_of_testBit_eq
    intro i
    simp only [Nat.testBit_land, Nat.zero_testBit]
    cases hpi : p.testBit i with
    | false => simp
    | true =>
      have hMi := h i hpi
      have hi : i < 32 := by
        by_contra hge
        rw [testBit_high_false hp (by omega)] at hpi
        exact Bool.noConfusion hpi
      unfold u32Compl
      rw [hmask, Nat.testBit_xor, Nat.testBit_two_pow_sub_one, hMi]
      simp [hi]

theorem accepts_iff_subset (M : Nat) (d : List Nat) :
    accepts M d = true ↔
      ∀ i, (hashLead32 d).testBit i = true → M.testBit i = true := by
  unfold accepts
  rw [beq_iff_eq]
  exact land_compl_zero_iff _ _ (hashLead32_lt d)

theorem accepts_top (d : List Nat) : accepts 4294967295 d = true := by
  unfold accepts
  have hc : u32Compl 4294967295 = 0 := by decide
  rw [hc, beq_iff_eq]
  apply Nat.eq_of_testBit_eq
  intro i
  simp [Nat.testBit_land]

theorem land_ones32 (p : Nat) (hp : p < 2 ^ 32) : p &&& (2 ^ 32 - 1) = p := by
  apply Nat.eq_of_testBit_eq
  intro i
  rw [Nat.testBit_land, Nat.testBit_two_pow_sub_one]
  by_cases hi : i < 32
  · simp [hi]
  · have hfalse := testBit_high_false hp (show 32 ≤ i by omega)
    simp [hi, hfalse]

theorem accepts_zero_iff (d : List Nat) : accepts 0 d = true ↔ hashLead32 d = 0 := by
  unfold accepts
  have hc : u32Compl 0 = 2 ^ 32 - 1 := by decide
  rw [hc, beq_iff_eq, land_ones32 _ (hashLead32_lt d)]

/-- C1: a worker in mine accepts the nonce iff every bit of the big-endian
32-bit word formed from the first 4 digest bytes lies inside the
difficulty mask M, that is (hash_lead AND NOT M) = 0; with
M = 0xFFFFFFFF every digest is accepted, and with M = 0 only a digest
whose first 4 bytes are all zero is accepted. -/
theorem mine_acceptance_spec (hashFn : String → List Nat) (address : String)
    (c : ChallengeParams) (M nonce : Nat) :
    (workerAccepts hashFn address c M nonce = true ↔
      hashLead32 (hashFn (buildPreimage address c nonce)) &&& u32Compl M = 0) ∧
    (workerAccepts hashFn address c M nonce = true ↔
      ∀ i, (hashLead32 (hashFn (buildPreimage address c nonce))).testBit i = true →
        M.testBit i = true) ∧
    workerAccepts hashFn address c 4294967295 nonce = true ∧
    (∀ d0 d1 d2 d3 rest, d0 < 256 → d1 < 256 → d2 < 256 → d3 < 256 →
      (accepts 0 (d0 :: d1 :: d2 :: d3 :: rest) = true ↔
        d0 = 0 ∧ d1 = 0 ∧ d2 = 0 ∧ d3 = 0)) := by
  refine ⟨?_, accepts_iff_subset M _, accepts_top _, ?_⟩
  · unfold workerAccepts accepts
    rw [beq_iff_eq]
  · intro d0 d1 d2 d3 rest h0 h1 h2 h3
    rw [accepts_zero_iff]
    unfold hashLead32
    simp only [List.getD_cons_zero, List.getD_cons_succ]
    omega

/-- Witness for C1: the all-ones mask accepts a concrete digest, and the
zero mask characterization holds at the digest 00 00 00 00 2a. -/
theorem mine_acceptance_spec_witness :
    workerAccepts (fun _ => [1, 2, 3, 4])
      "a" ⟨"id", none, none, none, none, none, none, none⟩ 4294967295 0 = true ∧
    (accepts 0 [0, 0, 0, 0, 42] = true ↔ 0 = 0 ∧ 0 = 0 ∧ 0 = 0 ∧ 0 = 0) :=
  ⟨(mine_acceptance_spec (fun _ => [1, 2, 3, 4])
      "a" ⟨"id", none, none, none, none, none, none, none⟩ 4294967295 0).2.2.1,
   (mine_acceptance_spec (fun _ => [1, 2, 3, 4])
      "a" ⟨"id", none, none, none, none, none, none, none⟩ 0 0).2.2.2 0 0 0 0 [42]
     (by norm_num) (by norm_num) (by norm_num) (by norm_num)⟩

/-- C8 counterexample: with an unparseable difficulty field the mask used
is 0, but the digest whose first bytes are 01 00 00 00 is then rejected,
so the fallback does not make every hash accepted. -/
theorem difficulty_fallback_not_accept_all :
    difficultyMask ⟨"mid-1", none, none, none, none, some "xyz", none, none⟩ = 0 ∧
    accepts (difficultyMask ⟨"mid-1", none, none, none, none, some "xyz", none, none⟩)
      [1, 0, 0, 0] = false := by
  decide

/-- C8 (amended): mine parses the difficulty field as hex-encoded unsigned
32-bit; a missing or unparseable field yields mask 0, which accepts only
digests whose leading 32-bit word is zero; the fallback is total (a
warning in the source), not an error returned to the caller. -/
theorem difficulty_fallback_spec (c : ChallengeParams) :
    difficultyMask c = (c.difficulty.bind u32FromStrRadix16).getD 0 ∧
    (c.difficulty = none → difficultyMask c = 0) ∧
    (∀ d, c.difficulty = some d → u32FromStrRadix16 d = none → difficultyMask c = 0) ∧
    (∀ d v, c.difficulty = some d → u32FromStrRadix16 d = some v → difficultyMask c = v) ∧
    (∀ digest, accepts (difficultyMask c) digest = true ↔
      hashLead32 digest &&& u32Compl (difficultyMask c) = 0) ∧
    (∀ digest, accepts 0 digest = true ↔ hashLead32 digest = 0) := by
  refine ⟨rfl, ?_, ?_, ?_, ?_, fun digest => accepts_zero_iff digest⟩
  · intro h
    simp [difficultyMask, h]
  · intro d hd hp
    simp [difficultyMask, hd, hp]
  · intro d v hd hp
    simp [difficultyMask, hd, hp]
  · intro digest
    unfold accepts
    rw [beq_iff_eq]

/-- Witness for C8 at a challenge whose difficulty field is the
unparseable string zz. -/
theorem difficulty_fallback_spec_witness :
    difficultyMask ⟨"id", none, none, none, none, some "zz", none, none⟩ = 0 ∧
    (accepts 0 [0, 0, 0, 0] = true ↔ hashLead32 [0, 0, 0, 0] = 0) :=
  ⟨(difficulty_fallback_spec ⟨"id", none, none, none, none, some "zz", none, none⟩).2.2.1
      "zz" rfl (by decide),
   (difficulty_fallback_spec ⟨"id", none, none, none, none, some "zz", none, none⟩).2.2.2.2.2
      [0, 0, 0, 0]⟩

/-- C9: every non-winning worker iteration advances the nonce by exactly
num_threads with wrapping 64-bit addition, the nonce after k iterations
is start + k * num_threads mod 2^64, and as long as no wrap occurs two
workers whose starting points differ modulo num_threads never hash the
same nonce. -/
theorem nonce_stride_spec (s T : Nat) (hT : T < 2 ^ 64) :
    (∀ k, nonceAt s T (k + 1) = (nonceAt s T k + T) % 2 ^ 64) ∧
    (∀ k, nonceAt s T k = (s + k * T) % 2 ^ 64) ∧
    (∀ s2 k m, s % T ≠ s2 % T → s + k * T < 2 ^ 64 → s2 + m * T < 2 ^ 64 →
      nonceAt s T k ≠ nonceAt s2 T m) := by
  have hstep : ∀ x, nonceStep T x = (x + T) % 2 ^ 64 := by
    intro x
    unfold nonceStep
    rw [Nat.mod_eq_of_lt hT]
  have hclosed : ∀ (s0 k : Nat), nonceAt s0 T k = (s0 + k * T) % 2 ^ 64 := by
    intro s0 k
    induction k with
    | zero => simp [nonceAt]
    | succ k ih =>
      show nonceStep T (nonceAt s0 T k) = _
      rw [hstep, ih, Nat.mod_add_mod]
      congr 1
      ring
  refine ⟨?_, hclosed s, ?_⟩
  · intro k
    show nonceStep T (nonceAt s T k) = _
    rw [hstep]
  · intro s2 k m hres hk hm heq
    rw [hclosed s k, hclosed s2 m, Nat.mod_eq_of_lt hk, Nat.mod_eq_of_lt hm] at heq
    apply hres
    have hcongr := congrArg (fun x => x % T) heq
    simpa [Nat.add_mul_mod_self_right] using hcongr

/-- Witness for C9 with 4 threads, starting points 5 and 6. -/
theorem nonce_stride_spec_witness :
    nonceAt 5 4 1 = (5 + 1 * 4) % 2 ^ 64 ∧ nonceAt 5 4 1 ≠ nonceAt 6 4 1 :=
  ⟨(nonce_stride_spec 5 4 (by norm_num)).2.1 1,
   (nonce_stride_spec 5 4 (by norm_num)).2.2 6 1 1 (by norm_num) (by norm_num) (by norm_num)⟩

/-- C3: in one mine call the shared found flag is set by the first
accepting worker to reach the atomic swap and the result slot holds
exactly that worker and its nonce; once the flag is set no later event
changes the shared state (so the false-to-true transition happens at most
once), and mine returns the single recorded winner. -/
theorem mine_single_winner (e : Nat × String) (es : List (Nat × String)) :
    raceRun (e :: es) = { found := true, slot := some e } ∧
    (∀ s : RaceState, s.found = true → List.foldl raceStep s es = s) ∧
    mineReturn (raceRun (e :: es)) = Except.ok e := by
  have frozen : ∀ (l : List (Nat × String)) (s : RaceState), s.found = true →
      List.foldl raceStep s l = s := by
    intro l
    induction l with
    | nil => intro s _; rfl
    | cons x xs ih =>
      intro s h
      rw [List.foldl_cons]
      rw [show raceStep s x = s from by unfold raceStep; rw [h]; simp]
      exact ih s h
  have hrun : raceRun (e :: es) = { found := true, slot := some e } := by
    unfold raceRun
    rw [List.foldl_cons]
    rw [show raceStep raceInit e = { found := true, slot := some e } from rfl]
    exact frozen es _ rfl
  exact ⟨hrun, fun s h => frozen es s h, by rw [hrun]; rfl⟩

/-- Witness for C3 with worker 0 accepting first and worker 1 second. -/
theorem mine_single_winner_witness :
    raceRun [(0, "aa"), (1, "bb")] = { found := true, slot := some (0, "aa") } ∧
    List.foldl raceStep { found := true, slot := some (1, "bb") } [(0, "aa")] =
      { found := true, slot := some (1, "bb") } ∧
    mineReturn (raceRun [(0, "aa"), (1, "bb")]) = Except.ok (0, "aa") :=
  ⟨(mine_single_winner (0, "aa") [(1, "bb")]).1,
   (mine_single_winner (0, "aa") [(0, "aa")]).2.1 { found := true, slot := some (1, "bb") } rfl,
   (mine_single_winner (0, "aa") [(1, "bb")]).2.2⟩

/-- C5: for every valid mnemonic phrase the base-address derivation draws
the payment key as the first 32-byte block of the generator seeded by the
first 32 seed bytes of the phrase and the staking key as the second
block, hashes each public key to 28 bytes, and the address payload is one
header byte (1 mainnet, 0 testnet) followed by the payment-key hash and
the stake-key hash, Bech32-encoded with hrp addr on mainnet and
addr_test on testnet; the payment key is kept as the signing key. -/
theorem shelley_base_address_spec (c : CryptoPrims) (phrase normalized : String)
    (useMainnet : Bool) (hp : c.parseMnemonic phrase = some normalized)
    (hblake : ∀ x, (c.blake224 x).length = 28) :
    ∃ w, generate_shelley_base_from_mnemonic_phrase c phrase useMainnet = some w ∧
      w.signingKey = c.chachaBlock ((c.seedOfPhrase normalized).take 32) 0 ∧
      (fillBytes32 c (chachaFromSeed ((c.seedOfPhrase normalized).take 32))).1 =
        c.chachaBlock ((c.seedOfPhrase normalized).take 32) 0 ∧
      (fillBytes32 c (fillBytes32 c (chachaFromSeed ((c.seedOfPhrase normalized).take 32))).2).1 =
        c.chachaBlock ((c.seedOfPhrase normalized).take 32) 1 ∧
      w.address = c.bech32Enc (if useMainnet then "addr" else "addr_test")
        ((if useMainnet then 1 else 0) ::
          (c.blake224 (c.pubOf (c.chachaBlock ((c.seedOfPhrase normalized).take 32) 0)) ++
            c.blake224 (c.pubOf (c.chachaBlock ((c.seedOfPhrase normalized).take 32) 1)))) ∧
      (c.blake224 (c.pubOf (c.chachaBlock ((c.seedOfPhrase normalized).take 32) 0))).length = 28 ∧
      (c.blake224 (c.pubOf (c.chachaBlock ((c.seedOfPhrase normalized).take 32) 1))).length = 28 ∧
      w.shelley_addr = w.address ∧
      w.mnemonic = some phrase := by
  unfold generate_shelley_base_from_mnemonic_phrase
  rw [hp]
  exact ⟨_, rfl, rfl, rfl, rfl, rfl, hblake _, hblake _, rfl, rfl⟩

theorem toyPrims_blake_len : ∀ x, (toyPrims.blake224 x).length = 28 := by
  intro x
  simp [toyPrims]

/-- Witness for C5 at the phrase abc under the toy primitives. -/
theorem shelley_base_address_spec_witness :
    ∃ w, generate_shelley_base_from_mnemonic_phrase toyPrims "abc" true = some w ∧
      w.signingKey = toyPrims.chachaBlock ((toyPrims.seedOfPhrase "abc").take 32) 0 ∧
      w.mnemonic = some "abc" := by
  obtain ⟨w, h1, h2, _, _, _, _, _, _, h9⟩ :=
    shelley_base_address_spec toyPrims "abc" "abc" true rfl toyPrims_blake_len
  exact ⟨w, h1, h2, h9⟩

/-- C2 counterexample: two wallets loaded from the persisted seed files
(phrases a and bb) under the toy primitives have identical public key
bytes and the same network flag yet different addresses, because
load_many_from_files derives the stored address from the seed-derived
key while keeping the Shelley payment key as the signing key.  So the
address of a wallet is not a pure function of its public key bytes and
the network flag across the constructors. -/
theorem wallet_address_not_pubkey_function :
    okB (load_many_from_files toyPrims "a" "x" true) = true ∧
    okB (load_many_from_files toyPrims "bb" "x" true) = true ∧
    walletPubkey toyPrims (firstWalletOf (load_many_from_files toyPrims "a" "x" true)) =
      walletPubkey toyPrims (firstWalletOf (load_many_from_files toyPrims "bb" "x" true)) ∧
    (firstWalletOf (load_many_from_files toyPrims "a" "x" true)).address ≠
      (firstWalletOf (load_many_from_files toyPrims "bb" "x" true)).address := by
  decide

/-- C2 (amended): for wallets from generate, generate_from_bip39 and
load_from_file the address is derive_bech32_address of the wallet public
key, hence a pure function of the public key bytes and the network flag;
a wallet loaded from the persisted seed files instead carries the
enterprise address of the key derived from the first 32 seed bytes of
its phrase while storing the Shelley payment key, so its address is a
pure function of the phrase and the network flag; in all cases two
wallets built by the same constructor from the same seed material and
network flag have the same address. -/
theorem wallet_address_derivation_spec (c : CryptoPrims) (entropy : List Nat)
    (contents : String) (useMainnet : Bool) :
    (generate c entropy useMainnet).address =
      derive_bech32_address c (walletPubkey c (generate c entropy useMainnet)) useMainnet ∧
    (generate_from_bip39 c entropy useMainnet).1.address =
      derive_bech32_address c
        (walletPubkey c (generate_from_bip39 c entropy useMainnet).1) useMainnet ∧
    (∀ w, load_from_file c contents useMainnet = Except.ok w →
      w.address = derive_bech32_address c (walletPubkey c w) useMainnet) ∧
    (∀ phrase keyHex rest w ws2 normalized,
      loadManyAux c useMainnet ((phrase, keyHex) :: rest) = Except.ok (w :: ws2) →
      c.parseMnemonic phrase = some normalized →
      w.address =
        derive_bech32_address c (c.pubOf ((c.seedOfPhrase normalized).take 32)) useMainnet ∧
      w.signingKey = c.chachaBlock ((c.seedOfPhrase normalized).take 32) 0) := by
  refine ⟨rfl, rfl, ?_, ?_⟩
  · intro w h
    unfold load_from_file at h
    split at h
    · exact Except.noConfusion h
    · split at h
      · exact Except.noConfusion h
      · injection h with hw
        rw [← hw]
        rfl
  · intro phrase keyHex rest w ws2 normalized h hp
    unfold loadManyAux generate_shelley_base_from_mnemonic_phrase at h
    rw [hp] at h
    cases hrest : loadManyAux c useMainnet rest with
    | error e =>
      rw [hrest] at h
      exact Except.noConfusion h
    | ok ws =>
      rw [hrest] at h
      injection h with h1
      injection h1 with hw _
      rw [← hw]
      exact ⟨rfl, rfl⟩

/-- Witness for C2 (amended): the enterprise-constructor purity at a
concrete generated wallet and the load_from_file case at 32 zero bytes. -/
theorem wallet_address_derivation_spec_witness :
    (generate toyPrims [1, 2] true).address =
      derive_bech32_address toyPrims
        (walletPubkey toyPrims (generate toyPrims [1, 2] true)) true ∧
    cexLoadWallet.address =
      derive_bech32_address toyPrims (walletPubkey toyPrims cexLoadWallet) true :=
  ⟨(wallet_address_derivation_spec toyPrims [1, 2] zeros64 true).1,
   (wallet_address_derivation_spec toyPrims [1, 2] zeros64 true).2.2.1 cexLoadWallet
     (by rfl)⟩

/-- C6: load_or_create never removes an existing wallet: when the files
hold k wallets and max_wallets is at most k it returns all k unchanged;
when max_wallets exceeds k it returns max_wallets wallets whose first k
entries are the loaded ones (addresses unchanged) followed by newly
generated wallets. -/
theorem load_or_create_preserves_wallets (ws : List Wallet) (gen : Nat → Wallet)
    (maxW : Nat) :
    (maxW ≤ ws.length → load_or_create (some ws) gen maxW = ws) ∧
    (ws.length < maxW →
      (load_or_create (some ws) gen maxW).length = maxW ∧
      (load_or_create (some ws) gen maxW).take ws.length = ws ∧
      (load_or_create (some ws) gen maxW).drop ws.length =
        (List.range (maxW - ws.length)).map gen ∧
      (load_or_create (some ws) gen maxW).map (fun w => w.address) =
        ws.map (fun w => w.address) ++
          ((List.range (maxW - ws.length)).map gen).map (fun w => w.address)) := by
  constructor
  · intro h
    unfold load_or_create
    simp only [Option.getD_some]
    rw [if_neg (by omega)]
  · intro h
    unfold load_or_create
    simp only [Option.getD_some]
    rw [if_pos h]
    refine ⟨?_, List.take_left ws _, List.drop_left ws _, ?_⟩
    · rw [List.length_append, List.length_map, List.length_range]
      omega
    · rw [List.map_append]

/-- Witness for C6: one existing wallet with max_wallets 1 (kept) and
max_wallets 2 (kept and extended). -/
theorem load_or_create_preserves_wallets_witness :
    load_or_create (some [wA]) genToy 1 = [wA] ∧
    (load_or_create (some [wA]) genToy 2).length = 2 ∧
    (load_or_create (some [wA]) genToy 2).take [wA].length = [wA] :=
  ⟨(load_or_create_preserves_wallets [wA] genToy 1).1 (by norm_num),
   ((load_or_create_preserves_wallets [wA] genToy 2).2 (by norm_num)).1,
   ((load_or_create_preserves_wallets [wA] genToy 2).2 (by norm_num)).2.1⟩

/-- C7: when the advisory lock file is already present (and is not
released during the 5-second retry window, the only case this
single-writer model expresses), save returns an error and leaves the
whole on-disk state, in particular the seeds and keys files, unchanged:
no temporary file is renamed over them. -/
theorem save_lock_timeout_spec (ws : List Wallet) (io : IoOutcomes) (fs : SaveFs)
    (h : fs.lockExists = true) :
    (containerSave ws io fs).1.isSome = true ∧ (containerSave ws io fs).2 = fs := by
  simp [containerSave, h]

/-- Witness for C7 at a locked filesystem. -/
theorem save_lock_timeout_spec_witness :
    (containerSave [] ⟨true, true, true, true⟩ fsLocked).1.isSome = true ∧
    (containerSave [] ⟨true, true, true, true⟩ fsLocked).2 = fsLocked :=
  save_lock_timeout_spec [] ⟨true, true, true, true⟩ fsLocked rfl

/-- C10: if save acquires the lock but a temporary-file write or a rename
fails, it returns the error with the lock file still present, and every
later save on the same path then fails after its retry window with the
state unchanged, until the lock file is cleared externally. -/
theorem save_lock_leak_spec (ws : List Wallet) (io : IoOutcomes) (fs : SaveFs)
    (hfree : fs.lockExists = false)
    (hfail : io.seedsWriteOk = false ∨ io.keysWriteOk = false ∨
      io.seedsRenameOk = false ∨ io.keysRenameOk = false) :
    (containerSave ws io fs).1.isSome = true ∧
    (containerSave ws io fs).2.lockExists = true ∧
    (∀ ws2 io2, containerSave ws2 io2 (containerSave ws io fs).2 =
      (some "WalletContainer: impossible d obtenir le lock", (containerSave ws io fs).2)) := by
  rcases io with ⟨s1, s2, s3, s4⟩
  cases s1 <;> cases s2 <;> cases s3 <;> cases s4 <;>
    simp_all [containerSave]

/-- Witness for C10: the seeds temporary-file write fails on an unlocked
filesystem; the failed save leaves the lock behind and a retry times
out. -/
theorem save_lock_leak_spec_witness :
    (containerSave [] ⟨false, true, true, true⟩ fsFree).1.isSome = true ∧
    (containerSave [] ⟨false, true, true, true⟩ fsFree).2.lockExists = true ∧
    containerSave [wA] ⟨true, true, true, true⟩ (containerSave [] ⟨false, true, true, true⟩ fsFree).2 =
      (some "WalletContainer: impossible d obtenir le lock",
        (containerSave [] ⟨false, true, true, true⟩ fsFree).2) :=
  ⟨(save_lock_leak_spec [] ⟨false, true, true, true⟩ fsFree rfl (Or.inl rfl)).1,
   (save_lock_leak_spec [] ⟨false, true, true, true⟩ fsFree rfl (Or.inl rfl)).2.1,
   (save_lock_leak_spec [] ⟨false, true, true, true⟩ fsFree rfl (Or.inl rfl)).2.2
     [wA] ⟨true, true, true, true⟩⟩

end Scavenger
